import Mathlib

/-!
Verification of the DEM-to-OBJ conversion pipeline (`scripts/dem2obj.py`).

The script reads a raster elevation grid, simplifies it to a triangle mesh
with the external Delatin library, drops vertices whose elevation is not
positive (together with every triangle touching them), remaps the surviving
triangle indices, writes an OBJ/MTL pair with lockstep vertex/UV records and
1-based face indices, and finally reports the geodetic position of the
bottom-left raster corner.

We embed the mesh data model and each pipeline stage as executable Lean
definitions over exact rationals, and prove the bookkeeping properties of
the filter, the remap table, the writer records and the corner resolver.
-/

namespace Dem2Obj

/-- A mesh vertex `(col, row, elev)` in grid space, as produced by Delatin
(`tin.vertices`, rows of shape `(N,3)`). -/
structure Vertex where
  col : ℚ
  row : ℚ
  elev : ℚ
deriving DecidableEq, Repr

/-- A triangle as an index triple into the vertex list (`tin.triangles`). -/
abbrev Tri := ℕ × ℕ × ℕ

/-- A mesh: ordered vertices plus index triangles. -/
structure Mesh where
  vertices : List Vertex
  triangles : List Tri
deriving DecidableEq, Repr

/-! ## VertexFilter (dem2obj.py lines 33-41)

`keep = verts[:, 2] > 0.0`; `remap = -np.ones(len(verts)); remap[keep] =
np.arange(keep.sum())`; `tris_keep = keep[tris].all(axis=1)`;
`tris = remap[tris[tris_keep]]`; `verts = verts[keep]`.
The mask computation is embedded generically in the retention predicate;
the pipeline instantiates it with the hard-coded `elev > 0.0` test. -/

/-- The boolean keep mask, one entry per vertex (`keep = p(verts)`). -/
def keepMask (p : Vertex → Bool) (vs : List Vertex) : List Bool :=
  vs.map p

/-- Builds the remap table from position `n`: kept slots receive sequential
new indices, dropped slots receive `-1`. -/
def remapAux : List Bool → ℕ → List ℤ
  | [], _ => []
  | true :: bs, n => (n : ℤ) :: remapAux bs (n + 1)
  | false :: bs, n => (-1) :: remapAux bs n

/-- The old-index to new-index table (`remap` in the script): `-1` for
dropped vertices, `0,1,2,...` in order for kept ones. -/
def remapTable (keep : List Bool) : List ℤ :=
  remapAux keep 0

/-- `keep[tris].all(axis=1)` for a single triangle: all three referenced
vertices are kept. An out-of-range index reads as not kept. -/
def triKept (keep : List Bool) : Tri → Bool
  | (a, b, c) => keep.getD a false && keep.getD b false && keep.getD c false

/-- `remap[t]` for a single surviving triangle. -/
def remapTri (remap : List ℤ) : Tri → Tri
  | (a, b, c) =>
    ((remap.getD a (-1)).toNat, (remap.getD b (-1)).toNat, (remap.getD c (-1)).toNat)

/-- The vertex filter: drop vertices failing `p` and every triangle touching
them, remapping the surviving triangle indices. -/
def filterMesh (p : Vertex → Bool) (m : Mesh) : Mesh :=
  let keep := keepMask p m.vertices
  { vertices := m.vertices.filter p
    triangles := (m.triangles.filter (triKept keep)).map (remapTri (remapTable keep)) }

/-- The retention predicate hard-coded by the script: `verts[:, 2] > 0.0`. -/
def elevKeep (v : Vertex) : Bool :=
  decide ((0 : ℚ) < v.elev)

/-- The filter stage exactly as the script runs it: threshold `0.0`, strict
comparison, not configurable from the interface of `main`. -/
def dem2objFilter (m : Mesh) : Mesh :=
  filterMesh elevKeep m

/-! ## CoordinateMapper and TextureCoordinateGenerator (lines 55-63) -/

/-- `x = col * px_size; y = row * px_size; z = elev` — the VR axis
convention of the script, elevation passed through unscaled. -/
def toOutputSpace (v : Vertex) (pxSize : ℚ) : ℚ × ℚ × ℚ :=
  (v.col * pxSize, v.row * pxSize, v.elev)

/-- `u = col / (ncols - 1); v = row / (nrows - 1)` — top-left image origin. -/
def toUV (v : Vertex) (ncols nrows : ℕ) : ℚ × ℚ :=
  (v.col / ((ncols : ℚ) - 1), v.row / ((nrows : ℚ) - 1))

/-- One output record per retained vertex: position and UV generated in
lockstep inside the single vertex loop of the script. -/
structure OutputVertexRecord where
  position : ℚ × ℚ × ℚ
  uv : ℚ × ℚ
deriving DecidableEq, Repr

/-- The vertex loop: one `v` line and one `vt` line per retained vertex,
in list order. -/
def vertexRecords (vs : List Vertex) (pxSize : ℚ) (ncols nrows : ℕ) :
    List OutputVertexRecord :=
  vs.map (fun v => ⟨toOutputSpace v pxSize, toUV v ncols nrows⟩)

/-- One corner of a face line: the position index and the texture index it
references, both 1-based (`{a}/{a}`). -/
structure FaceRef where
  vIdx : ℕ
  vtIdx : ℕ
deriving DecidableEq, Repr

/-- The face loop: `a += 1; b += 1; c += 1; f a/a b/b c/c`. -/
def objFaces (tris : List Tri) : List (FaceRef × FaceRef × FaceRef) :=
  tris.map (fun t =>
    (⟨t.1 + 1, t.1 + 1⟩, ⟨t.2.1 + 1, t.2.1 + 1⟩, ⟨t.2.2 + 1, t.2.2 + 1⟩))

/-- Everything the writer receives for the OBJ body. -/
structure ObjOutput where
  records : List OutputVertexRecord
  faces : List (FaceRef × FaceRef × FaceRef)
deriving DecidableEq, Repr

/-- The post-simplifier pipeline of the script: filter, then serialize.
There is no empty-mesh check anywhere on this path: whatever survives the
filter, including nothing at all, is handed to the writer. -/
def writeObj (m : Mesh) (pxSize : ℚ) (ncols nrows : ℕ) : ObjOutput :=
  let fm := dem2objFilter m
  ⟨vertexRecords fm.vertices pxSize ncols nrows, objFaces fm.triangles⟩

/-! ## GeodeticOriginResolver (lines 72-86) -/

/-- The six geotransform entries in GDAL order:
`(x0, px_w, rot, y0, rot, -px_h)`. -/
structure GeoTransform where
  gt0 : ℚ
  gt1 : ℚ
  gt2 : ℚ
  gt3 : ℚ
  gt4 : ℚ
  gt5 : ℚ
deriving DecidableEq, Repr

/-- `x0 = gt[0]; y0 = gt[3] + (nrows * gt[5])` — the bottom-left corner in
projected coordinates. -/
def originCorner (gt : GeoTransform) (nrows : ℕ) : ℚ × ℚ :=
  (gt.gt0, gt.gt3 + (nrows : ℚ) * gt.gt5)

/-- `lat, lon, _ = tx.TransformPoint(x0, y0)`: the external CRS transform
`tx` is a collaborator, kept abstract as a function argument; the resolver
passes it exactly the corner point and keeps the first two results. -/
def resolveOrigin (gt : GeoTransform) (nrows : ℕ) (tx : ℚ × ℚ → ℚ × ℚ × ℚ) :
    ℚ × ℚ :=
  ((tx (originCorner gt nrows)).1, (tx (originCorner gt nrows)).2.1)

/-! ## Tolerance default (lines 17 and 88-91)

`def main(dem_path, tex_path, obj_path, *, max_err=4.0)` and the entry
point `main(*sys.argv[1:])`, which never passes `max_err`. -/

/-- The keyword-only default of `main`: `max_err=4.0`. -/
def defaultMaxErr : ℚ := 4

/-- The tolerance `main` hands to `Delatin(elev, max_error=max_err)`:
the supplied value when a caller passed one, the default otherwise. -/
def mainMaxErr (given : Option ℚ) : ℚ :=
  given.getD defaultMaxErr

/-- The command-line entry point calls `main(*sys.argv[1:])` with the three
positional paths only, so the keyword `max_err` is never supplied. -/
def cliMaxErr : ℚ :=
  mainMaxErr none

/-! ## MeshSimplifier (spec section 4.1)

The simplifier itself is the external Delatin library; only its caller
appears under `scripts/`. The validation and the exact-mode output are
therefore modelled from the spec. -/

/-- The failure cases of the simplifier named by the spec. -/
inductive SimplifyError where
  | degenerateInput
  | invalidTolerance
deriving DecidableEq, Repr

/-- Modelled from the spec: exact-mode vertices, one per raster sample in
row-major order, with `v(x,y) = y*width + x`. -/
def exactVertices (width height : ℕ) (samples : ℕ → ℕ → ℚ) : List Vertex :=
  (List.range height).flatMap
    (fun y => (List.range width).map (fun (x : ℕ) => ⟨(x : ℚ), (y : ℚ), samples y x⟩))

/-- Modelled from the spec: the two triangles of grid cell `(x, y)` with the
fixed diagonal, `(v(x,y), v(x,y+1), v(x+1,y))` and
`(v(x+1,y), v(x,y+1), v(x+1,y+1))`. -/
def cellTris (width x y : ℕ) : List Tri :=
  [(y * width + x, (y + 1) * width + x, y * width + (x + 1)),
   (y * width + (x + 1), (y + 1) * width + x, (y + 1) * width + (x + 1))]

/-- Modelled from the spec: exact-mode triangle list, two per grid cell. -/
def exactTriangles (width height : ℕ) : List Tri :=
  (List.range (height - 1)).flatMap
    (fun y => (List.range (width - 1)).flatMap (fun x => cellTris width x y))

/-- Modelled from the spec: the exact-mode mesh of a raster. -/
def exactMesh (width height : ℕ) (samples : ℕ → ℕ → ℚ) : Mesh :=
  ⟨exactVertices width height samples, exactTriangles width height⟩

/-- Modelled from the spec: the MeshSimplifier contract. The implementation
behind `Delatin(elev, max_error=max_err)` is an external library that is not
part of this tree, so its interface is taken from spec section 4.1: fail
with `DegenerateInputError` when `width < 2` or `height < 2`, fail with
`InvalidToleranceError` when `maxVerticalError < 0`, and otherwise return a
mesh (realized here by the exact mode, which the spec fixes completely). -/
def simplify (width height : ℕ) (samples : ℕ → ℕ → ℚ)
    (maxVerticalError : ℚ) : Except SimplifyError Mesh :=
  if width < 2 ∨ height < 2 then .error .degenerateInput
  else if maxVerticalError < 0 then .error .invalidTolerance
  else .ok (exactMesh width height samples)

/-- The whole run of `main` after input decoding: simplify with the
defaulted tolerance, filter, serialize. Only the (spec-modelled) simplifier
stage can fail; the filter and writer stages of the script are total. -/
def runPipeline (width height : ℕ) (samples : ℕ → ℕ → ℚ) (pxSize : ℚ)
    (given : Option ℚ) : Except SimplifyError ObjOutput :=
  (simplify width height samples (mainMaxErr given)).map
    (fun m => writeObj m pxSize width height)

/-- A run started from the command line: no tolerance argument exists. -/
def cliRun (width height : ℕ) (samples : ℕ → ℕ → ℚ) (pxSize : ℚ) :
    Except SimplifyError ObjOutput :=
  runPipeline width height samples pxSize none

/-- The number of kept entries in a mask (`keep.sum()` in the script). -/
def keptCount : List Bool → ℕ
  | [] => 0
  | true :: bs => keptCount bs + 1
  | false :: bs => keptCount bs

/-- A concrete mesh with one vertex below the elevation floor and a
triangle touching it, exercising the filter retention theorem. -/
def sampleMeshA : Mesh :=
  ⟨[⟨0, 0, 1⟩, ⟨1, 0, -1⟩, ⟨0, 1, 2⟩, ⟨1, 1, 3⟩], [(0, 1, 2), (0, 2, 3)]⟩

/-- A concrete mesh exercising the remap monotonicity theorem. -/
def sampleMeshB : Mesh :=
  ⟨[⟨0, 0, 2⟩, ⟨1, 0, -3⟩, ⟨0, 1, 5⟩, ⟨1, 1, 1⟩], [(0, 2, 3)]⟩

/-- A concrete mesh exercising the fixed-threshold theorem. -/
def sampleMeshC : Mesh :=
  ⟨[⟨0, 0, 4⟩, ⟨1, 0, -1⟩, ⟨0, 1, 1⟩], [(0, 1, 2)]⟩

/-- A concrete mesh every vertex of which fails the elevation test: one
elevation is exactly zero (dropped by the strict comparison), the other
negative. -/
def sampleMeshD : Mesh :=
  ⟨[⟨0, 0, 0⟩, ⟨1, 0, -2⟩], [(0, 1, 1)]⟩

/-- Another all-dropped mesh, for the silent-empty-output theorem. -/
def sampleMeshE : Mesh :=
  ⟨[⟨0, 0, -7⟩, ⟨1, 0, 0⟩, ⟨0, 1, -1⟩], [(0, 1, 2)]⟩

/-- A concrete mesh with one surviving face, exercising the writer
index theorem. -/
def sampleMeshF : Mesh :=
  ⟨[⟨0, 0, 1⟩, ⟨1, 0, -1⟩, ⟨0, 1, 2⟩, ⟨1, 1, 3⟩], [(0, 1, 2), (0, 2, 3)]⟩

end Dem2Obj

namespace Dem2Obj

/-! ## Helper lemmas about the mask, the remap table and `getD` -/

theorem getD_map_lt {α β : Type} (f : α → β) (l : List α) (i : ℕ) (d : α)
    (d2 : β) (hi : i < l.length) : (l.map f).getD i d2 = f (l.getD i d) := by
  induction l generalizing i with
  | nil => simp at hi
  | cons a l ih =>
    cases i with
    | zero => rfl
    | succ i =>
      have hi2 : i < l.length := by simpa using hi
      simpa [List.getD_cons_succ] using ih i hi2

theorem getD_true_lt_length (bs : List Bool) (i : ℕ)
    (hb : bs.getD i false = true) : i < bs.length := by
  by_contra h
  push_neg at h
  rw [List.getD_eq_default _ _ h] at hb
  exact Bool.false_ne_true hb

theorem remapAux_length (bs : List Bool) (n : ℕ) :
    (remapAux bs n).length = bs.length := by
  induction bs generalizing n with
  | nil => rfl
  | cons b bs ih => cases b <;> simp [remapAux, ih]

theorem remapAux_getD (bs : List Bool) (n i : ℕ) (hi : i < bs.length) :
    (remapAux bs n).getD i (-1) =
      if bs.getD i false = true then ((n + keptCount (bs.take i) : ℕ) : ℤ)
      else -1 := by
  induction bs generalizing n i with
  | nil => simp at hi
  | cons b bs ih =>
    cases i with
    | zero => cases b <;> simp [remapAux, keptCount]
    | succ i =>
      have hi2 : i < bs.length := by simpa using hi
      cases b with
      | true =>
        rw [show remapAux (true :: bs) n = (n : ℤ) :: remapAux bs (n + 1) from rfl,
          List.getD_cons_succ, List.getD_cons_succ, ih (n + 1) i hi2,
          List.take_succ_cons]
        by_cases hb : bs.getD i false = true
        · rw [if_pos hb, if_pos hb]
          have : keptCount (true :: bs.take i) = keptCount (bs.take i) + 1 := rfl
          rw [this]
          push_cast
          ring
        · rw [if_neg hb, if_neg hb]
      | false =>
        rw [show remapAux (false :: bs) n = (-1) :: remapAux bs n from rfl,
          List.getD_cons_succ, List.getD_cons_succ, ih n i hi2,
          List.take_succ_cons]
        have : keptCount (false :: bs.take i) = keptCount (bs.take i) := rfl
        rw [this]

theorem keptCount_take_lt (bs : List Bool) (i : ℕ) (hi : i < bs.length)
    (hb : bs.getD i false = true) : keptCount (bs.take i) < keptCount bs := by
  induction bs generalizing i with
  | nil => simp at hi
  | cons b bs ih =>
    cases i with
    | zero =>
      have hbtrue : b = true := by simpa using hb
      subst hbtrue
      show keptCount [] < keptCount bs + 1
      simp [keptCount]
    | succ i =>
      have hi2 : i < bs.length := by simpa using hi
      have hb2 : bs.getD i false = true := by simpa using hb
      have := ih i hi2 hb2
      cases b with
      | true =>
        show keptCount (true :: bs.take i) < keptCount (true :: bs)
        simpa [keptCount] using this
      | false =>
        show keptCount (false :: bs.take i) < keptCount (false :: bs)
        simpa [keptCount] using this

theorem keptCount_take_mono (bs : List Bool) (i j : ℕ) (hij : i < j)
    (hj : j ≤ bs.length) (hb : bs.getD i false = true) :
    keptCount (bs.take i) < keptCount (bs.take j) := by
  induction bs generalizing i j with
  | nil =>
    simp only [List.length_nil, Nat.le_zero] at hj
    omega
  | cons b bs ih =>
    cases j with
    | zero => omega
    | succ j =>
      cases i with
      | zero =>
        have hbtrue : b = true := by simpa using hb
        subst hbtrue
        show keptCount [] < keptCount (true :: bs.take j)
        simp [keptCount]
      | succ i =>
        have hj2 : j ≤ bs.length := by simpa using hj
        have hb2 : bs.getD i false = true := by simpa using hb
        have := ih i j (by omega) hj2 hb2
        cases b with
        | true =>
          show keptCount (true :: bs.take i) < keptCount (true :: bs.take j)
          simpa [keptCount] using this
        | false =>
          show keptCount (false :: bs.take i) < keptCount (false :: bs.take j)
          simpa [keptCount] using this

theorem keptCount_take_onto (bs : List Bool) (k : ℕ) (hk : k < keptCount bs) :
    ∃ i, i < bs.length ∧ bs.getD i false = true ∧
      keptCount (bs.take i) = k := by
  induction bs generalizing k with
  | nil => simp [keptCount] at hk
  | cons b bs ih =>
    cases b with
    | true =>
      cases k with
      | zero => exact ⟨0, by simp, rfl, rfl⟩
      | succ k =>
        have hk2 : k < keptCount bs := by
          have : keptCount (true :: bs) = keptCount bs + 1 := rfl
          omega
        obtain ⟨i, hi, hb, hc⟩ := ih k hk2
        refine ⟨i + 1, by simpa using Nat.succ_lt_succ hi, by simpa using hb, ?_⟩
        show keptCount (true :: bs.take i) = k + 1
        simp [keptCount, hc]
    | false =>
      have hk2 : k < keptCount bs := hk
      obtain ⟨i, hi, hb, hc⟩ := ih k hk2
      refine ⟨i + 1, by simpa using Nat.succ_lt_succ hi, by simpa using hb, ?_⟩
      show keptCount (false :: bs.take i) = k
      simpa [keptCount] using hc

theorem length_filter_eq_keptCount (p : Vertex → Bool) (vs : List Vertex) :
    (vs.filter p).length = keptCount (keepMask p vs) := by
  induction vs with
  | nil => rfl
  | cons v vs ih =>
    have hmask : keepMask p (v :: vs) = p v :: keepMask p vs := rfl
    by_cases hv : p v = true
    · rw [List.filter_cons_of_pos hv, hmask, hv]
      show (vs.filter p).length + 1 = keptCount (keepMask p vs) + 1
      rw [ih]
    · have hv2 : p v = false := Bool.eq_false_iff.mpr hv
      rw [List.filter_cons_of_neg hv, hmask, hv2]
      show (vs.filter p).length = keptCount (keepMask p vs)
      exact ih

theorem remap_getD_of_kept (bs : List Bool) (a : ℕ)
    (ha : bs.getD a false = true) :
    (remapTable bs).getD a (-1) = (keptCount (bs.take a) : ℤ) := by
  have hlt := getD_true_lt_length bs a ha
  rw [remapTable, remapAux_getD bs 0 a hlt, if_pos ha]
  norm_num

theorem remap_getD_of_dropped (bs : List Bool) (a : ℕ) (ha : a < bs.length)
    (hb : bs.getD a false = false) :
    (remapTable bs).getD a (-1) = -1 := by
  have hcond : ¬ (bs.getD a false = true) := by
    rw [hb]
    exact Bool.false_ne_true
  rw [remapTable, remapAux_getD bs 0 a ha, if_neg hcond]

theorem remap_toNat_lt (bs : List Bool) (a : ℕ)
    (ha : bs.getD a false = true) :
    ((remapTable bs).getD a (-1)).toNat < keptCount bs := by
  rw [remap_getD_of_kept bs a ha]
  simpa using keptCount_take_lt bs a (getD_true_lt_length bs a ha) ha

theorem triKept_components (keep : List Bool) (t : Tri)
    (h : triKept keep t = true) :
    keep.getD t.1 false = true ∧ keep.getD t.2.1 false = true ∧
      keep.getD t.2.2 false = true := by
  obtain ⟨a, b, c⟩ := t
  simpa [triKept, Bool.and_eq_true, and_assoc] using h

theorem filterMesh_tri_lt (p : Vertex → Bool) (m : Mesh) :
    ∀ t ∈ (filterMesh p m).triangles,
      t.1 < (filterMesh p m).vertices.length ∧
      t.2.1 < (filterMesh p m).vertices.length ∧
      t.2.2 < (filterMesh p m).vertices.length := by
  intro t ht
  have hlen : (filterMesh p m).vertices.length =
      keptCount (keepMask p m.vertices) := by
    show (m.vertices.filter p).length = _
    exact length_filter_eq_keptCount p m.vertices
  rw [show (filterMesh p m).triangles =
      (m.triangles.filter (triKept (keepMask p m.vertices))).map
        (remapTri (remapTable (keepMask p m.vertices))) from rfl] at ht
  obtain ⟨t0, ht0, hmap⟩ := List.mem_map.mp ht
  have hkept : triKept (keepMask p m.vertices) t0 = true :=
    List.of_mem_filter ht0
  obtain ⟨ha, hb, hc⟩ := triKept_components _ _ hkept
  obtain ⟨a, b, c⟩ := t0
  subst hmap
  rw [hlen]
  exact ⟨remap_toNat_lt _ a ha, remap_toNat_lt _ b hb, remap_toNat_lt _ c hc⟩

/-! ## Theorems for the simple functional components -/

/-- C6: for every vertex and every positive pixel size the coordinate
mapper puts `col * pxSize` and `row * pxSize` on the horizontal axes and
passes the elevation through unscaled; as a plain function of its
arguments it holds no hidden mutable state. -/
theorem coordinateMapper_spec (v : Vertex) (pxSize : ℚ) (_hpx : 0 < pxSize) :
    (toOutputSpace v pxSize).1 = v.col * pxSize ∧
    (toOutputSpace v pxSize).2.1 = v.row * pxSize ∧
    (toOutputSpace v pxSize).2.2 = v.elev :=
  ⟨rfl, rfl, rfl⟩

/-- Witness for C6 at the vertex `(2, 3, 7)` with pixel size `1/2`. -/
theorem coordinateMapper_spec_witness :
    (toOutputSpace ⟨2, 3, 7⟩ (1/2)).1 = 2 * (1/2 : ℚ) ∧
    (toOutputSpace ⟨2, 3, 7⟩ (1/2)).2.1 = 3 * (1/2 : ℚ) ∧
    (toOutputSpace ⟨2, 3, 7⟩ (1/2)).2.2 = 7 :=
  coordinateMapper_spec ⟨2, 3, 7⟩ (1/2) (by norm_num)

/-- C5: for a raster at least 2 wide and 2 high and a vertex inside the
grid, the texture generator returns `u = col/(width-1)` and
`v = row/(height-1)` (top-left image origin, the convention the script
hard-codes), and both components lie in `[0, 1]`. -/
theorem textureCoordinates_spec (v : Vertex) (ncols nrows : ℕ)
    (hw : 2 ≤ ncols) (hh : 2 ≤ nrows)
    (hc0 : 0 ≤ v.col) (hc1 : v.col ≤ (ncols : ℚ) - 1)
    (hr0 : 0 ≤ v.row) (hr1 : v.row ≤ (nrows : ℚ) - 1) :
    toUV v ncols nrows = (v.col / ((ncols : ℚ) - 1), v.row / ((nrows : ℚ) - 1)) ∧
    0 ≤ (toUV v ncols nrows).1 ∧ (toUV v ncols nrows).1 ≤ 1 ∧
    0 ≤ (toUV v ncols nrows).2 ∧ (toUV v ncols nrows).2 ≤ 1 := by
  have hwq : (2 : ℚ) ≤ (ncols : ℚ) := by exact_mod_cast hw
  have hhq : (2 : ℚ) ≤ (nrows : ℚ) := by exact_mod_cast hh
  have hw1 : (0 : ℚ) < (ncols : ℚ) - 1 := by linarith
  have hh1 : (0 : ℚ) < (nrows : ℚ) - 1 := by linarith
  refine ⟨rfl, ?_, ?_, ?_, ?_⟩
  · exact div_nonneg hc0 hw1.le
  · exact (div_le_one hw1).mpr hc1
  · exact div_nonneg hr0 hh1.le
  · exact (div_le_one hh1).mpr hr1

/-- Witness for C5 at the center vertex of a 3 by 3 raster. -/
theorem textureCoordinates_spec_witness :
    toUV ⟨1, 1, 5⟩ 3 3 = ((1 : ℚ) / ((3 : ℚ) - 1), (1 : ℚ) / ((3 : ℚ) - 1)) ∧
    0 ≤ (toUV ⟨1, 1, 5⟩ 3 3).1 ∧ (toUV ⟨1, 1, 5⟩ 3 3).1 ≤ 1 ∧
    0 ≤ (toUV ⟨1, 1, 5⟩ 3 3).2 ∧ (toUV ⟨1, 1, 5⟩ 3 3).2 ≤ 1 :=
  textureCoordinates_spec ⟨1, 1, 5⟩ 3 3 (by norm_num) (by norm_num)
    (by norm_num) (by norm_num) (by norm_num) (by norm_num)

/-- C7: the origin resolver computes the bottom-left corner from the
geotransform as `x = gt0` and `y = gt3 + pixelHeight * height`, and it is
exactly this point that reaches the external CRS transform, whose first two
outputs become the reported latitude and longitude. -/
theorem geodeticOrigin_spec (gt : GeoTransform) (nrows : ℕ)
    (tx : ℚ × ℚ → ℚ × ℚ × ℚ) :
    originCorner gt nrows = (gt.gt0, gt.gt3 + gt.gt5 * (nrows : ℚ)) ∧
    resolveOrigin gt nrows tx =
      ((tx (gt.gt0, gt.gt3 + gt.gt5 * (nrows : ℚ))).1,
       (tx (gt.gt0, gt.gt3 + gt.gt5 * (nrows : ℚ))).2.1) := by
  have h : originCorner gt nrows = (gt.gt0, gt.gt3 + gt.gt5 * (nrows : ℚ)) := by
    simp [originCorner, mul_comm]
  exact ⟨h, by rw [resolveOrigin, h]⟩

/-- C10: with no caller-supplied tolerance, `main` uses the keyword default
`max_err = 4.0`; the command-line entry point never supplies one, so a CLI
run is the same run with tolerance 4. -/
theorem defaultTolerance_spec :
    mainMaxErr none = 4 ∧ cliMaxErr = 4 ∧
    (∀ q : ℚ, mainMaxErr (some q) = q) ∧
    (∀ w h s px, cliRun w h s px = runPipeline w h s px (some 4)) :=
  ⟨rfl, rfl, fun _ => rfl, fun _ _ _ _ => rfl⟩

/-! ## Theorems about the vertex filter -/

/-- C1: on any mesh whose triangles index into the vertex list, the filter
retains a triangle exactly when all three referenced vertices satisfy the
predicate; every triangle of the filtered output indexes below the
surviving vertex count; and every surviving vertex satisfies the
predicate. -/
theorem vertexFilter_spec (p : Vertex → Bool) (m : Mesh)
    (hvalid : ∀ t ∈ m.triangles, t.1 < m.vertices.length ∧
      t.2.1 < m.vertices.length ∧ t.2.2 < m.vertices.length) :
    (∀ t ∈ m.triangles,
      (triKept (keepMask p m.vertices) t = true ↔
        p (m.vertices.getD t.1 ⟨0, 0, 0⟩) = true ∧
        p (m.vertices.getD t.2.1 ⟨0, 0, 0⟩) = true ∧
        p (m.vertices.getD t.2.2 ⟨0, 0, 0⟩) = true)) ∧
    (∀ t ∈ (filterMesh p m).triangles,
      t.1 < (filterMesh p m).vertices.length ∧
      t.2.1 < (filterMesh p m).vertices.length ∧
      t.2.2 < (filterMesh p m).vertices.length) ∧
    (∀ v ∈ (filterMesh p m).vertices, p v = true) := by
  refine ⟨?_, filterMesh_tri_lt p m, ?_⟩
  · intro t ht
    obtain ⟨a, b, c⟩ := t
    obtain ⟨ha, hb, hc⟩ := hvalid (a, b, c) ht
    have ea : (keepMask p m.vertices).getD a false =
        p (m.vertices.getD a ⟨0, 0, 0⟩) :=
      getD_map_lt p m.vertices a ⟨0, 0, 0⟩ false ha
    have eb : (keepMask p m.vertices).getD b false =
        p (m.vertices.getD b ⟨0, 0, 0⟩) :=
      getD_map_lt p m.vertices b ⟨0, 0, 0⟩ false hb
    have ec : (keepMask p m.vertices).getD c false =
        p (m.vertices.getD c ⟨0, 0, 0⟩) :=
      getD_map_lt p m.vertices c ⟨0, 0, 0⟩ false hc
    simp only [triKept, Bool.and_eq_true, ea, eb, ec, and_assoc]
  · intro v hv
    exact List.of_mem_filter hv

/-- Witness for C1: the surviving triangle of the sample mesh indexes below
the surviving vertex count. -/
theorem vertexFilter_spec_witness :
    0 < (filterMesh elevKeep sampleMeshA).vertices.length ∧
    1 < (filterMesh elevKeep sampleMeshA).vertices.length ∧
    2 < (filterMesh elevKeep sampleMeshA).vertices.length :=
  (vertexFilter_spec elevKeep sampleMeshA (by decide)).2.1 (0, 1, 2) (by decide)

/-- C4: the surviving vertices form a subsequence of the input, retained
triangles touch only kept vertices, and the old-to-new remap is strictly
increasing on kept indices, lands inside `0..len(retained)-1`, and attains
every index of that range. -/
theorem filterOrder_spec (p : Vertex → Bool) (m : Mesh) :
    (filterMesh p m).vertices.Sublist m.vertices ∧
    (∀ t ∈ m.triangles.filter (triKept (keepMask p m.vertices)),
      (keepMask p m.vertices).getD t.1 false = true ∧
      (keepMask p m.vertices).getD t.2.1 false = true ∧
      (keepMask p m.vertices).getD t.2.2 false = true) ∧
    (∀ i j : ℕ, i < j → j < m.vertices.length →
      (keepMask p m.vertices).getD i false = true →
      (keepMask p m.vertices).getD j false = true →
      (remapTable (keepMask p m.vertices)).getD i (-1) <
        (remapTable (keepMask p m.vertices)).getD j (-1)) ∧
    (∀ i : ℕ, (keepMask p m.vertices).getD i false = true →
      0 ≤ (remapTable (keepMask p m.vertices)).getD i (-1) ∧
      (remapTable (keepMask p m.vertices)).getD i (-1) <
        ((filterMesh p m).vertices.length : ℤ)) ∧
    (∀ k : ℕ, k < (filterMesh p m).vertices.length →
      ∃ i : ℕ, i < m.vertices.length ∧
        (keepMask p m.vertices).getD i false = true ∧
        (remapTable (keepMask p m.vertices)).getD i (-1) = (k : ℤ)) := by
  have hlen : (filterMesh p m).vertices.length =
      keptCount (keepMask p m.vertices) :=
    length_filter_eq_keptCount p m.vertices
  have hmasklen : (keepMask p m.vertices).length = m.vertices.length := by
    simp [keepMask]
  refine ⟨List.filter_sublist _, ?_, ?_, ?_, ?_⟩
  · intro t ht
    exact triKept_components _ _ (List.of_mem_filter ht)
  · intro i j hij hj hik hjk
    rw [remap_getD_of_kept _ i hik, remap_getD_of_kept _ j hjk]
    have := keptCount_take_mono (keepMask p m.vertices) i j hij
      (by rw [hmasklen]; exact hj.le) hik
    exact_mod_cast this
  · intro i hik
    rw [remap_getD_of_kept _ i hik]
    refine ⟨Int.natCast_nonneg _, ?_⟩
    rw [hlen]
    exact_mod_cast keptCount_take_lt _ i (getD_true_lt_length _ i hik) hik
  · intro k hk
    rw [hlen] at hk
    obtain ⟨i, hi, hb, hc⟩ := keptCount_take_onto _ k hk
    refine ⟨i, by rwa [hmasklen] at hi, hb, ?_⟩
    rw [remap_getD_of_kept _ i hb, hc]

/-- Witness for C4: on the sample mesh the remap is increasing between the
kept indices 0 and 2 and sends kept index 3 into the surviving range. -/
theorem filterOrder_spec_witness :
    (remapTable (keepMask elevKeep sampleMeshB.vertices)).getD 0 (-1) <
      (remapTable (keepMask elevKeep sampleMeshB.vertices)).getD 2 (-1) ∧
    0 ≤ (remapTable (keepMask elevKeep sampleMeshB.vertices)).getD 3 (-1) ∧
    (remapTable (keepMask elevKeep sampleMeshB.vertices)).getD 3 (-1) <
      ((filterMesh elevKeep sampleMeshB).vertices.length : ℤ) :=
  ⟨(filterOrder_spec elevKeep sampleMeshB).2.2.1 0 2 (by decide) (by decide)
      (by decide) (by decide),
   ((filterOrder_spec elevKeep sampleMeshB).2.2.2.1 3 (by decide)).1,
   ((filterOrder_spec elevKeep sampleMeshB).2.2.2.1 3 (by decide)).2⟩

/-- C9: the elevation floor is the constant `0` with a strict comparison:
any vertex whose elevation is zero or negative is dropped, its remap slot is
`-1`, and every triangle referencing its index fails the retention test and
is absent from the retained-triangle scan. The predicate `elevKeep` is the
one `dem2objFilter` hard-codes; `main` exposes no way to change it. -/
theorem elevationFloor_spec (m : Mesh) (i : ℕ) (hi : i < m.vertices.length)
    (he : (m.vertices.getD i ⟨0, 0, 0⟩).elev ≤ 0) :
    elevKeep (m.vertices.getD i ⟨0, 0, 0⟩) = false ∧
    (keepMask elevKeep m.vertices).getD i false = false ∧
    (remapTable (keepMask elevKeep m.vertices)).getD i (-1) = -1 ∧
    (∀ t ∈ m.triangles, (t.1 = i ∨ t.2.1 = i ∨ t.2.2 = i) →
      triKept (keepMask elevKeep m.vertices) t = false ∧
      t ∉ m.triangles.filter (triKept (keepMask elevKeep m.vertices))) := by
  have hkf : elevKeep (m.vertices.getD i ⟨0, 0, 0⟩) = false :=
    decide_eq_false (not_lt.mpr he)
  have hmask : (keepMask elevKeep m.vertices).getD i false = false := by
    show (m.vertices.map elevKeep).getD i false = false
    rw [getD_map_lt elevKeep m.vertices i ⟨0, 0, 0⟩ false hi, hkf]
  have hmasklen : (keepMask elevKeep m.vertices).length = m.vertices.length := by
    simp [keepMask]
  refine ⟨hkf, hmask,
    remap_getD_of_dropped _ i (by rw [hmasklen]; exact hi) hmask, ?_⟩
  intro t ht hti
  obtain ⟨a, b, c⟩ := t
  have hnk : triKept (keepMask elevKeep m.vertices) (a, b, c) = false := by
    simp only [triKept]
    rcases hti with h1 | h1 | h1
    · have h2 : a = i := h1
      subst h2
      rw [hmask, Bool.false_and, Bool.false_and]
    · have h2 : b = i := h1
      subst h2
      rw [hmask, Bool.and_false, Bool.false_and]
    · have h2 : c = i := h1
      subst h2
      rw [hmask, Bool.and_false]
  refine ⟨hnk, fun hmem => ?_⟩
  have := List.of_mem_filter hmem
  rw [hnk] at this
  exact Bool.false_ne_true this

/-- Witness for C9: the zero-floor facts at vertex index 1 of the sample
mesh, whose elevation is `-1`. -/
theorem elevationFloor_spec_witness :
    elevKeep (sampleMeshC.vertices.getD 1 ⟨0, 0, 0⟩) = false ∧
    (remapTable (keepMask elevKeep sampleMeshC.vertices)).getD 1 (-1) = -1 ∧
    triKept (keepMask elevKeep sampleMeshC.vertices) (0, 1, 2) = false :=
  ⟨(elevationFloor_spec sampleMeshC 1 (by decide) (by decide)).1,
   (elevationFloor_spec sampleMeshC 1 (by decide) (by decide)).2.2.1,
   ((elevationFloor_spec sampleMeshC 1 (by decide) (by decide)).2.2.2
      (0, 1, 2) (by decide) (by decide)).1⟩

/-! ## Theorems about the empty-mesh behaviour -/

/-- C2 counterexample: a mesh whose every vertex fails the elevation test
is filtered to the empty mesh and still serialized: the writer receives
zero records and zero faces, and a whole pipeline run over an all-negative
raster succeeds with that empty output instead of failing. -/
theorem emptyMeshError_counterexample :
    dem2objFilter sampleMeshD = ⟨[], []⟩ ∧
    writeObj sampleMeshD 1 3 3 = ⟨[], []⟩ ∧
    runPipeline 2 2 (fun _ _ => -5) 1 none = .ok ⟨[], []⟩ :=
  ⟨by decide, by decide, by rfl⟩

/-- C2 amended: when the filter leaves no vertex, no error is raised;
every triangle is dropped as well and the writer is handed the empty mesh,
serializing zero vertex records and zero faces. -/
theorem emptyMesh_silent_spec (m : Mesh) (pxSize : ℚ) (ncols nrows : ℕ)
    (hempty : (dem2objFilter m).vertices = []) :
    (dem2objFilter m).triangles = [] ∧
    writeObj m pxSize ncols nrows = ⟨[], []⟩ := by
  have hnone : ∀ i : ℕ, (keepMask elevKeep m.vertices).getD i false = false := by
    intro i
    cases hx : (keepMask elevKeep m.vertices).getD i false
    · rfl
    · exfalso
      have hi : i < (keepMask elevKeep m.vertices).length :=
        getD_true_lt_length _ i hx
      have hi2 : i < m.vertices.length := by simpa [keepMask] using hi
      have hp : elevKeep (m.vertices.getD i ⟨0, 0, 0⟩) = true := by
        rw [← getD_map_lt elevKeep m.vertices i ⟨0, 0, 0⟩ false hi2]
        exact hx
      have hmem : m.vertices.getD i ⟨0, 0, 0⟩ ∈ m.vertices := by
        rw [List.getD_eq_getElem _ _ hi2]
        exact List.getElem_mem hi2
      have hin : m.vertices.getD i ⟨0, 0, 0⟩ ∈ m.vertices.filter elevKeep :=
        List.mem_filter.mpr ⟨hmem, hp⟩
      have hfe : m.vertices.filter elevKeep = [] := hempty
      rw [hfe] at hin
      exact (List.not_mem_nil _) hin
  have hfil : m.triangles.filter (triKept (keepMask elevKeep m.vertices)) = [] := by
    rw [List.filter_eq_nil_iff]
    intro t ht
    obtain ⟨a, b, c⟩ := t
    simp only [triKept]
    rw [hnone a, Bool.false_and, Bool.false_and]
    exact Bool.false_ne_true
  have htris : (dem2objFilter m).triangles = [] := by
    show (m.triangles.filter (triKept (keepMask elevKeep m.vertices))).map
      (remapTri (remapTable (keepMask elevKeep m.vertices))) = []
    rw [hfil]
    rfl
  refine ⟨htris, ?_⟩
  show (⟨vertexRecords (dem2objFilter m).vertices pxSize ncols nrows,
    objFaces (dem2objFilter m).triangles⟩ : ObjOutput) = ⟨[], []⟩
  rw [hempty, htris]
  rfl

/-- Witness for C2 amended: the all-dropped sample mesh serializes to the
empty output. -/
theorem emptyMesh_silent_spec_witness :
    (dem2objFilter sampleMeshE).triangles = [] ∧
    writeObj sampleMeshE 1 4 4 = ⟨[], []⟩ :=
  emptyMesh_silent_spec sampleMeshE 1 4 4 (by decide)

/-! ## Theorems about the writer hand-off -/

/-- C8: the writer receives one record per retained vertex; every face
corner carries the same 1-based index for position and texture coordinate,
and that index lies in `1..len(records)`; the i-th record holds exactly
the mapped position and the UV of the i-th retained vertex (lockstep). -/
theorem objWriter_spec (m : Mesh) (pxSize : ℚ) (ncols nrows : ℕ) :
    (writeObj m pxSize ncols nrows).records.length =
      (dem2objFilter m).vertices.length ∧
    (∀ f ∈ (writeObj m pxSize ncols nrows).faces,
      f.1.vIdx = f.1.vtIdx ∧ f.2.1.vIdx = f.2.1.vtIdx ∧
      f.2.2.vIdx = f.2.2.vtIdx ∧
      1 ≤ f.1.vIdx ∧
      f.1.vIdx ≤ (writeObj m pxSize ncols nrows).records.length ∧
      1 ≤ f.2.1.vIdx ∧
      f.2.1.vIdx ≤ (writeObj m pxSize ncols nrows).records.length ∧
      1 ≤ f.2.2.vIdx ∧
      f.2.2.vIdx ≤ (writeObj m pxSize ncols nrows).records.length) ∧
    (∀ i : ℕ, i < (dem2objFilter m).vertices.length →
      (writeObj m pxSize ncols nrows).records.getD i ⟨(0, 0, 0), (0, 0)⟩ =
        ⟨toOutputSpace ((dem2objFilter m).vertices.getD i ⟨0, 0, 0⟩) pxSize,
         toUV ((dem2objFilter m).vertices.getD i ⟨0, 0, 0⟩) ncols nrows⟩) := by
  have hreclen : (writeObj m pxSize ncols nrows).records.length =
      (dem2objFilter m).vertices.length := by
    simp [writeObj, vertexRecords]
  refine ⟨hreclen, ?_, ?_⟩
  · intro f hf
    have hf2 : f ∈ objFaces (dem2objFilter m).triangles := hf
    obtain ⟨t, ht, hmap⟩ := List.mem_map.mp hf2
    obtain ⟨a, b, c⟩ := t
    obtain ⟨hla, hlb, hlc⟩ := filterMesh_tri_lt elevKeep m (a, b, c) ht
    have ha2 : a < (dem2objFilter m).vertices.length := hla
    have hb2 : b < (dem2objFilter m).vertices.length := hlb
    have hc2 : c < (dem2objFilter m).vertices.length := hlc
    subst hmap
    rw [hreclen]
    refine ⟨rfl, rfl, rfl, ?_, ?_, ?_, ?_, ?_, ?_⟩ <;> dsimp only <;> omega
  · intro i hi
    have hrec : (writeObj m pxSize ncols nrows).records =
        ((dem2objFilter m).vertices).map
          (fun v => (⟨toOutputSpace v pxSize, toUV v ncols nrows⟩ :
            OutputVertexRecord)) := rfl
    rw [hrec]
    exact getD_map_lt
      (fun v => (⟨toOutputSpace v pxSize, toUV v ncols nrows⟩ :
        OutputVertexRecord))
      (dem2objFilter m).vertices i (⟨0, 0, 0⟩ : Vertex)
      (⟨(0, 0, 0), (0, 0)⟩ : OutputVertexRecord) hi

/-- Witness for C8: the single surviving face of the sample mesh carries
lockstep 1-based indices within range. -/
theorem objWriter_spec_witness :
    (1 : ℕ) = 1 ∧ (2 : ℕ) = 2 ∧ (3 : ℕ) = 3 ∧
    1 ≤ 1 ∧ 1 ≤ (writeObj sampleMeshF 1 3 3).records.length ∧
    1 ≤ 2 ∧ 2 ≤ (writeObj sampleMeshF 1 3 3).records.length ∧
    1 ≤ 3 ∧ 3 ≤ (writeObj sampleMeshF 1 3 3).records.length :=
  (objWriter_spec sampleMeshF 1 3 3).2.1 (⟨1, 1⟩, ⟨2, 2⟩, ⟨3, 3⟩) (by decide)

/-! ## Theorems about the spec-modelled simplifier validation -/

/-- C3: the simplifier rejects a degenerate raster (`width < 2` or
`height < 2`) with the degenerate-input error, rejects a negative tolerance
on a non-degenerate raster with the invalid-tolerance error, and in either
situation produces no mesh at all. -/
theorem simplifier_validation_spec (width height : ℕ)
    (samples : ℕ → ℕ → ℚ) (tol : ℚ) :
    ((width < 2 ∨ height < 2) →
      simplify width height samples tol = .error .degenerateInput) ∧
    (2 ≤ width → 2 ≤ height → tol < 0 →
      simplify width height samples tol = .error .invalidTolerance) ∧
    ((width < 2 ∨ height < 2 ∨ tol < 0) →
      ∀ mm : Mesh, simplify width height samples tol ≠ .ok mm) := by
  refine ⟨fun hdeg => ?_, fun hw hh ht => ?_, fun hbad mm heq => ?_⟩
  · rw [simplify, if_pos hdeg]
  · have hnd : ¬(width < 2 ∨ height < 2) := by omega
    rw [simplify, if_neg hnd, if_pos ht]
  · by_cases hdeg : width < 2 ∨ height < 2
    · rw [simplify, if_pos hdeg] at heq
      exact Except.noConfusion heq
    · have ht : tol < 0 := by
        rcases hbad with h | h | h
        · exact absurd (Or.inl h) hdeg
        · exact absurd (Or.inr h) hdeg
        · exact h
      rw [simplify, if_neg hdeg, if_pos ht] at heq
      exact Except.noConfusion heq

/-- Witness for C3: a one-column raster is rejected as degenerate, and a
negative tolerance on a 5 by 5 raster is rejected as invalid. -/
theorem simplifier_validation_spec_witness :
    simplify 1 5 (fun _ _ => 0) 1 = .error .degenerateInput ∧
    simplify 5 5 (fun _ _ => 0) (-1) = .error .invalidTolerance :=
  ⟨(simplifier_validation_spec 1 5 (fun _ _ => 0) 1).1 (Or.inl (by norm_num)),
   (simplifier_validation_spec 5 5 (fun _ _ => 0) (-1)).2.1 (by norm_num)
     (by norm_num) (by norm_num)⟩

end Dem2Obj
